import Mathlib

/-!
Verification development for the `desub` facade crate (substrate-desub).

The definitions below shallow-embed the code of `src/desub/src/lib.rs`
(the versioned decoder dispatcher), `src/desub/src/types.rs`
(the `LegacyOrCurrent` output wrapper) and `src/extras/src/extrinsics.rs`
(chain/spec-ranged type overrides).  Components of the repository that are
not present under `src/` (the `desub_current` and `desub_legacy` decoding
engines, the `error` module, `frame_metadata`, and the `extras` crate root)
are modelled from the specification; every such definition carries a doc
comment starting with `Modelled from the spec:`.
-/

namespace Desub

/-- Spec versions are unsigned 32-bit integers in the source (`SpecVersion`);
modelled as `Nat`. -/
abbrev SpecVersion := Nat

/-- Byte strings; each element is intended to be `< 256`. -/
abbrev Bytes := List Nat

/-- Modelled from the spec: little-endian unsigned interpretation of a byte
string (used by the big-integer mode of the SCALE compact encoding, §4.1);
the primitive codec source is not under `src/`. -/
def compactLE : Bytes → Nat
  | [] => 0
  | b :: t => b + 256 * compactLE t

/-- Modelled from the spec: SCALE compact-integer decoding (§4.1).  The two
low bits of the first byte tag the mode; over-wide encodings are accepted.
Returns the decoded value and the remaining bytes, or `none` on failure.
The primitive codec source is not under `src/`. -/
def decodeCompact : Bytes → Option (Nat × Bytes)
  | [] => none
  | b :: t =>
    if b % 4 == 0 then some (b / 4, t)
    else if b % 4 == 1 then
      match t with
      | [] => none
      | b2 :: t2 => some ((b + 256 * b2) / 4, t2)
    else if b % 4 == 2 then
      match t with
      | b2 :: b3 :: b4 :: t4 =>
        some ((b + 256 * b2 + 65536 * b3 + 16777216 * b4) / 4, t4)
      | _ => none
    else
      if b / 4 + 4 ≤ t.length then
        some (compactLE (t.take (b / 4 + 4)), t.drop (b / 4 + 4))
      else none

/-- Decoding-level failures (the error kinds of spec §7 reachable in this
model). -/
inductive DecodeError where
  | badCompact
  | truncated (expected got : Nat)
  | unsupportedTxVersion (v : Nat)
  deriving Repr, DecidableEq

/-- Modelled from the spec: the decoded form of one extrinsic (§4.7).  The
`desub_current`/`desub_legacy` extrinsic decoders are not under `src/`; the
claims under verification only depend on success/failure of single-extrinsic
decoding and on equality of decoded values, so the envelope is recorded
structurally (version byte, signed flag, pallet and call indices, and the
raw argument bytes). -/
structure DecodedExtrinsic where
  txVersion : Nat
  signed : Bool
  palletIndex : Nat
  callIndex : Nat
  argBytes : Bytes
  deriving Repr, DecidableEq

/-- Modelled from the spec: decoding a single extrinsic frame (§4.7).  The
low 7 bits of the version byte must be 4 (the supported transaction
version); the high bit is the signed flag; then come the pallet and call
index bytes and the argument bytes. -/
def decodeSingleExtrinsic (frame : Bytes) : Except DecodeError DecodedExtrinsic :=
  match frame with
  | [] => .error (.truncated 1 0)
  | v :: rest =>
    if v % 128 ≠ 4 then .error (.unsupportedTxVersion (v % 128))
    else
      match rest with
      | p :: c :: args => .ok ⟨v % 128, decide (128 ≤ v), p, c, args⟩
      | _ => .error (.truncated 2 rest.length)

/-- Modelled from the spec: batch extrinsic decoding (§4.7, §7).  Each
extrinsic in the block body is a compact-length-prefixed frame; on an inner
failure the successfully decoded prefix (accumulated in `acc`) is returned
alongside the first error (best-effort batch contract).  The `fuel`
argument only bounds the number of frames so that the recursion is
structural: every frame consumes at least one byte
(`decodeCompact_length`), so `data.length + 1` fuel is always sufficient
and the fuel-exhaustion branch is unreachable from the entry point
(`batchGo_fuel`). -/
def batchGo : Nat → List DecodedExtrinsic → Bytes →
    Except (List DecodedExtrinsic × DecodeError) (List DecodedExtrinsic)
  | _, acc, [] => .ok acc.reverse
  | 0, acc, _ :: _ => .error (acc.reverse, .badCompact)
  | fuel + 1, acc, b :: t =>
    match decodeCompact (b :: t) with
    | none => .error (acc.reverse, .badCompact)
    | some (n, rest) =>
      if rest.length < n then .error (acc.reverse, .truncated n rest.length)
      else
        match decodeSingleExtrinsic (rest.take n) with
        | .error e => .error (acc.reverse, e)
        | .ok ext => batchGo fuel (ext :: acc) (rest.drop n)

/-- Modelled from the spec: the `desub_current`/`desub_legacy` batch
extrinsic decoder entry point (the engines are not under `src/`; the spec
fixes the batch contract in §4.7 and §7). -/
def decodeExtrinsicsBatch (data : Bytes) :
    Except (List DecodedExtrinsic × DecodeError) (List DecodedExtrinsic) :=
  batchGo (data.length + 1) [] data

/-- Modelled from the spec: a decoded storage record (§4.6, §6).  The key
layout is `twox128(pallet) || twox128(entry) || key_tail`; the two 16-byte
digests and the tail are recorded, together with the optional value bytes.
The storage decoding engines are not under `src/`; the claims under
verification depend only on success/failure and on value equality. -/
structure StorageRecord where
  palletHash : Bytes
  entryHash : Bytes
  keyTail : Bytes
  value : Option Bytes
  deriving Repr, DecidableEq

/-- Modelled from the spec: storage entry decoding (§4.6).  A well-formed key
carries at least the two 16-byte `twox128` prefix digests. -/
def decodeStorageEntry (key : Bytes) (val : Option Bytes) :
    Except DecodeError StorageRecord :=
  if key.length < 32 then .error (.truncated 32 key.length)
  else .ok ⟨key.take 16, (key.drop 16).take 16, key.drop 32, val⟩

/-- Modelled from the spec: the decoded form of a `RuntimeMetadataPrefixed`
blob (§4.5): the metadata version byte that follows the magic bytes, and
the remaining payload. -/
structure RuntimeMetadataPrefixed where
  version : Nat
  payload : Bytes
  deriving Repr, DecidableEq

/-- Modelled from the spec: `Decode::decode` for `RuntimeMetadataPrefixed`
(§4.5): the blob must begin with the magic bytes `0x6d 0x65 0x74 0x61`
followed by a one-byte version; `frame_metadata` is not under `src/`. -/
def decodeRuntimeMetadataPrefixed : Bytes → Option RuntimeMetadataPrefixed
  | 0x6d :: 0x65 :: 0x74 :: 0x61 :: v :: rest => some ⟨v, rest⟩
  | _ => none

/-- Modelled from the spec: the current regime's in-memory metadata
(`DesubMetadata`); `desub_current` is not under `src/`, so the parsed blob
itself stands for the normalized schema. -/
abbrev CurrentMetadata := RuntimeMetadataPrefixed

/-- Modelled from the spec: `DesubMetadata::from_runtime_metadata` succeeds
for metadata versions 14+ (the current schema, §6). -/
def currentFromRuntimeMetadata (m : RuntimeMetadataPrefixed) :
    Except Nat CurrentMetadata :=
  if 14 ≤ m.version then .ok m else .error m.version

/-- Modelled from the spec: `LegacyDesubMetadata::from_runtime_metadata`
succeeds for metadata versions 8–13 (the legacy schema, §4.5, §6);
other versions are `UnsupportedMetadataVersion`. -/
def legacyFromRuntimeMetadata (m : RuntimeMetadataPrefixed) :
    Except Nat RuntimeMetadataPrefixed :=
  if 8 ≤ m.version ∧ m.version ≤ 13 then .ok m else .error m.version

/-- Association-list membership test, mirroring `HashMap::contains_key`. -/
def assocContains {κ α : Type} [BEq κ] (m : List (κ × α)) (k : κ) : Bool :=
  m.any (fun p => p.1 == k)

/-- Association-list insertion, mirroring `HashMap::insert`: the new binding
replaces any previous binding of the same key. -/
def assocInsert {κ α : Type} [BEq κ] (m : List (κ × α)) (k : κ) (x : α) :
    List (κ × α) :=
  (k, x) :: m.filter (fun p => !(p.1 == k))

/-- Association-list lookup, mirroring `HashMap::get`. -/
def assocLookup {κ α : Type} [BEq κ] (m : List (κ × α)) (k : κ) : Option α :=
  match m with
  | [] => none
  | p :: t => if p.1 == k then some p.2 else assocLookup t k

/-- Number of bindings of a key in an association list. -/
def countKey {κ α : Type} [BEq κ] (m : List (κ × α)) (k : κ) : Nat :=
  (m.filter (fun p => p.1 == k)).length

/-- Modelled from the spec: the legacy decoder's per-spec-version state
(`desub_legacy::decoder::Decoder`, not under `src/`).  It keeps its own
registration table; the external JSON type resolver is immutable after
construction and does not affect the claims under verification. -/
structure LegacyDecoder where
  versions : List (SpecVersion × RuntimeMetadataPrefixed)
  deriving Repr, DecidableEq

/-- The legacy decoder's `has_version`: exact spec-version lookup. -/
def LegacyDecoder.has_version (l : LegacyDecoder) (v : SpecVersion) : Bool :=
  assocContains l.versions v

/-- Modelled from the spec: the legacy decoder's `register_version` (§3):
insertion is additive and re-registering a version replaces silently. -/
def LegacyDecoder.register_version (l : LegacyDecoder) (v : SpecVersion)
    (m : RuntimeMetadataPrefixed) : Except Nat LegacyDecoder :=
  .ok ⟨assocInsert l.versions v m⟩

/-- Modelled from the spec: the legacy decoder's batch extrinsic decoding;
per §7 it returns the successfully-decoded prefix alongside the first
error, like the current engine. -/
def LegacyDecoder.decode_extrinsics (_ : LegacyDecoder) (_ : SpecVersion)
    (data : Bytes) :
    Except (List DecodedExtrinsic × DecodeError) (List DecodedExtrinsic) :=
  decodeExtrinsicsBatch data

/-- Modelled from the spec: the legacy decoder's storage decoding (§4.6). -/
def LegacyDecoder.decode_storage (_ : LegacyDecoder) (_ : SpecVersion)
    (key : Bytes) (val : Option Bytes) : Except DecodeError StorageRecord :=
  decodeStorageEntry key val

/-- Modelled from the spec: the facade `Error` type (`src/desub/src/error.rs`
is not under `src/`; §7 lists the kinds).  `V14` mirrors the
`Error::V14 { source, ext }` variant constructed in `lib.rs`;
registration failures wrap their cause, which — as the bare `?` operators
in `register_version` show — cannot carry the spec version. -/
inductive Error where
  | SpecVersionNotFound (spec : SpecVersion)
  | Codec
  | UnsupportedMetadataVersion (v : Nat)
  | V14 (source : DecodeError) (ext : Option (List DecodedExtrinsic))
  | LegacyDecode (source : DecodeError) (ext : List DecodedExtrinsic)
  | LegacyStorage (source : DecodeError)
  deriving Repr, DecidableEq

/-- The spec version carried by an error, when there is one. -/
def errorSpecVersion : Error → Option SpecVersion
  | .SpecVersionNotFound s => some s
  | _ => none

/-- The output wrapper of `src/desub/src/types.rs`: a value decoded under
either the legacy or the current regime. -/
inductive LegacyOrCurrent (L C : Type) where
  | Legacy (l : L)
  | Current (c : C)
  deriving Repr, DecidableEq

/-- `LegacyOrCurrentExtrinsic` of `src/desub/src/types.rs`. -/
abbrev LegacyOrCurrentExtrinsic := LegacyOrCurrent DecodedExtrinsic DecodedExtrinsic

/-- `LegacyOrCurrentStorage` of `src/desub/src/types.rs`. -/
abbrev LegacyOrCurrentStorage := LegacyOrCurrent StorageRecord StorageRecord

/-- The dispatcher state of `src/desub/src/lib.rs`: a legacy decoder plus
the current (v14+) per-spec-version metadata table.  The
`DsubMetadataAndDecoder` entry pairs the metadata with a storage decoder
derived from it; the derived decoder adds no state, so the entry is the
metadata. -/
structure Decoder where
  legacy_decoder : LegacyDecoder
  current_metadata : List (SpecVersion × CurrentMetadata)
  deriving Repr, DecidableEq

/-- `Decoder::new` (non-`polkadot-js` build): an empty legacy decoder and an
empty current table. -/
def Decoder.new : Decoder :=
  ⟨⟨[]⟩, []⟩

/-- `Decoder::register_version` of `src/desub/src/lib.rs`: decode the
metadata blob, then route by its own version — 14+ into the current table,
otherwise into the legacy decoder. -/
def Decoder.register_version (d : Decoder) (version : SpecVersion)
    (metadata : Bytes) : Except Error Decoder :=
  match decodeRuntimeMetadataPrefixed metadata with
  | none => .error .Codec
  | some md =>
    if 14 ≤ md.version then
      match currentFromRuntimeMetadata md with
      | .error v => .error (.UnsupportedMetadataVersion v)
      | .ok meta =>
        .ok { d with current_metadata := assocInsert d.current_metadata version meta }
    else
      match legacyFromRuntimeMetadata md with
      | .error v => .error (.UnsupportedMetadataVersion v)
      | .ok lm =>
        match d.legacy_decoder.register_version version lm with
        | .error v => .error (.UnsupportedMetadataVersion v)
        | .ok leg => .ok { d with legacy_decoder := leg }

/-- `Decoder::decode_extrinsics` of `src/desub/src/lib.rs`: the current
table is consulted first; otherwise the legacy decoder, and if neither
regime knows the version the result is `SpecVersionNotFound`. -/
def Decoder.decode_extrinsics (d : Decoder) (version : SpecVersion)
    (data : Bytes) : Except Error (List LegacyOrCurrentExtrinsic) :=
  if assocContains d.current_metadata version then
    match decodeExtrinsicsBatch data with
    | .ok v => .ok (v.map LegacyOrCurrent.Current)
    | .error (ext, e) => .error (.V14 e (some ext))
  else if !(d.legacy_decoder.has_version version) then
    .error (.SpecVersionNotFound version)
  else
    match d.legacy_decoder.decode_extrinsics version data with
    | .ok v => .ok (v.map LegacyOrCurrent.Legacy)
    | .error (ext, e) => .error (.LegacyDecode e ext)

/-- `Decoder::decode_storage` of `src/desub/src/lib.rs`. -/
def Decoder.decode_storage (d : Decoder) (version : SpecVersion)
    (key_data : Bytes) (value_data : Option Bytes) :
    Except Error LegacyOrCurrentStorage :=
  if assocContains d.current_metadata version then
    match decodeStorageEntry key_data value_data with
    | .ok v => .ok (LegacyOrCurrent.Current v)
    | .error e => .error (.V14 e none)
  else if !(d.legacy_decoder.has_version version) then
    .error (.SpecVersionNotFound version)
  else
    match d.legacy_decoder.decode_storage version key_data value_data with
    | .ok v => .ok (LegacyOrCurrent.Legacy v)
    | .error e => .error (.LegacyStorage e)

/-- `Decoder::has_version` of `src/desub/src/lib.rs`. -/
def Decoder.has_version (d : Decoder) (version : SpecVersion) : Bool :=
  assocContains d.current_metadata version || d.legacy_decoder.has_version version

/-- Apply a sequence of `register_version` calls, keeping the previous state
when a call fails (a failed call returns early without mutating). -/
def regApply (d : Decoder) (calls : List (SpecVersion × Bytes)) : Decoder :=
  calls.foldl
    (fun s p =>
      match s.register_version p.1 p.2 with
      | .ok s2 => s2
      | .error _ => s) d

/-- The regime a metadata blob routes to: `some true` for current (14+),
`some false` for legacy (< 14), `none` when the blob fails to decode. -/
def blobRegime (b : Bytes) : Option Bool :=
  (decodeRuntimeMetadataPrefixed b).map (fun md => decide (14 ≤ md.version))

/-- Whether a decoded extrinsic came out wrapped in the current regime's
constructor. -/
def isCurrentWrapped : LegacyOrCurrentExtrinsic → Bool
  | .Current _ => true
  | .Legacy _ => false

/-- Whether a decoded extrinsic came out wrapped in the legacy regime's
constructor. -/
def isLegacyWrapped : LegacyOrCurrentExtrinsic → Bool
  | .Legacy _ => true
  | .Current _ => false

/-- A decode result visibly produced by the current regime: every decoded
extrinsic is `Current`-wrapped, and errors are `V14` errors. -/
def usesCurrentRegime : Except Error (List LegacyOrCurrentExtrinsic) → Bool
  | .ok l => l.all isCurrentWrapped
  | .error (.V14 _ _) => true
  | .error _ => false

/-- A decode result visibly produced by the legacy regime. -/
def usesLegacyRegime : Except Error (List LegacyOrCurrentExtrinsic) → Bool
  | .ok l => l.all isLegacyWrapped
  | .error (.LegacyDecode _ _) => true
  | .error _ => false

/-- The partial extrinsic list carried by a batch-decode error, wrapped the
way `decode_extrinsics` wraps successful output of the same regime. -/
def errExts : Error → Option (List LegacyOrCurrentExtrinsic)
  | .V14 _ (some l) => some (l.map LegacyOrCurrent.Current)
  | .LegacyDecode _ l => some (l.map LegacyOrCurrent.Legacy)
  | _ => none

/-- A pallet-scoped map of type-name definitions (`ModuleTypes` of the
`extras` crate root, which is not under `src/`); the claims under
verification compare these values only for equality, so a name-to-alias
association list stands for it. -/
abbrev ModuleTypes := List (String × String)

/-- Modelled from the spec: one spec-version range entry of the
chain-override list (`TypeRange`, §4.3/§6): a `[min, max|null]` range and
the types it carries; a `null` max extends to infinity. -/
structure TypeRange where
  min_spec : Nat
  max_spec : Option Nat
  types : ModuleTypes
  deriving Repr, DecidableEq

/-- Modelled from the spec: `is_in_range(spec, f)` of the `extras` crate
root — whether `spec` lies in the entry's `[min, max|null]` range. -/
def is_in_range (spec : Nat) (f : TypeRange) : Bool :=
  decide (f.min_spec ≤ spec) &&
    (match f.max_spec with
     | none => true
     | some mx => decide (spec ≤ mx))

/-- `Extrinsics` of `src/extras/src/extrinsics.rs`: a map from chain name to
its ordered list of spec-version range entries. -/
structure Extrinsics where
  entries : List (String × List TypeRange)
  deriving Repr, DecidableEq

/-- `Extrinsics::get_chain_types` of `src/extras/src/extrinsics.rs`: look up
the chain, then take the first range entry containing `spec`. -/
def Extrinsics.get_chain_types (e : Extrinsics) (chain : String) (spec : Nat) :
    Option ModuleTypes :=
  (assocLookup e.entries chain).bind
    (fun rs => (rs.find? (fun f => is_in_range spec f)).map (fun o => o.types))

/-- A concrete metadata blob of the legacy regime: magic bytes, version 13. -/
def legacyBlob13 : Bytes := [0x6d, 0x65, 0x74, 0x61, 13]

/-- A concrete metadata blob of the current regime: magic bytes, version 14. -/
def currentBlob14 : Bytes := [0x6d, 0x65, 0x74, 0x61, 14]

/-- Every successful compact decode consumes at least one byte. -/
theorem decodeCompact_length {l : Bytes} {n : Nat} {rest : Bytes}
    (h : decodeCompact l = some (n, rest)) : rest.length < l.length := by
  match l with
  | [] => simp [decodeCompact] at h
  | b :: t =>
    simp only [decodeCompact] at h
    split at h
    · cases h; simp
    · split at h
      · match t with
        | [] => simp at h
        | b2 :: t2 => cases h; simp; omega
      · split at h
        · match t with
          | [] => simp at h
          | [b2] => simp at h
          | [b2, b3] => simp at h
          | b2 :: b3 :: b4 :: t4 => cases h; simp; omega
        · split at h
          · cases h
            simp only [List.length_cons, List.length_drop]
            omega
          · simp at h

/-- A successful compact decode splits the input into a consumed prefix and
the rest, and the consumed prefix determines the result whatever follows. -/
theorem decodeCompact_prefix {l : Bytes} {n : Nat} {rest : Bytes}
    (h : decodeCompact l = some (n, rest)) :
    ∃ c, l = c ++ rest ∧ ∀ t, decodeCompact (c ++ t) = some (n, t) := by
  match l with
  | [] => simp [decodeCompact] at h
  | b :: t =>
    simp only [decodeCompact] at h
    split at h
    · rename_i h0
      cases h
      exact ⟨[b], by simp, fun t => by simp [decodeCompact, h0]⟩
    · rename_i h0
      split at h
      · rename_i h1
        match t with
        | [] => simp at h
        | b2 :: t2 =>
          cases h
          exact ⟨[b, b2], by simp, fun t => by simp [decodeCompact, h0, h1]⟩
      · rename_i h1
        split at h
        · rename_i h2
          match t with
          | [] => simp at h
          | [b2] => simp at h
          | [b2, b3] => simp at h
          | b2 :: b3 :: b4 :: t4 =>
            cases h
            exact ⟨[b, b2, b3, b4], by simp,
              fun t => by simp [decodeCompact, h0, h1, h2]⟩
        · rename_i h2
          split at h
          · rename_i hlen
            cases h
            refine ⟨b :: t.take (b / 4 + 4), by simp, fun rest2 => ?_⟩
            have htk : (t.take (b / 4 + 4)).length = b / 4 + 4 := by
              simp [List.length_take]; omega
            simp only [List.cons_append, decodeCompact, h0, h1, h2,
              if_false, Bool.false_eq_true]
            have hlen2 : b / 4 + 4 ≤ (t.take (b / 4 + 4) ++ rest2).length := by
              simp [htk]
            rw [if_pos hlen2]
            rw [List.take_left' htk, List.drop_left' htk]
          · simp at h

/-- A nonempty list never decodes under an empty compact prefix. -/
theorem decodeCompact_prefix_ne_nil {n : Nat} {c : Bytes}
    (h : ∀ t, decodeCompact (c ++ t) = some (n, t)) : c ≠ [] := by
  intro hc
  subst hc
  have h0 := h []
  simp [decodeCompact] at h0

/-- One-step unfolding of `batchGo` on empty input. -/
theorem batchGo_nil (f : Nat) (acc : List DecodedExtrinsic) :
    batchGo f acc [] = .ok acc.reverse := by
  cases f <;> rfl

/-- One-step unfolding of `batchGo` when the compact length prefix fails. -/
theorem batchGo_cons_none {b : Nat} {t : Bytes}
    (hc : decodeCompact (b :: t) = none) (g : Nat)
    (acc : List DecodedExtrinsic) :
    batchGo (g + 1) acc (b :: t) = .error (acc.reverse, .badCompact) := by
  simp only [batchGo, hc]

/-- One-step unfolding of `batchGo` when the compact length prefix
succeeds. -/
theorem batchGo_cons_some {b : Nat} {t : Bytes} {n : Nat} {rest : Bytes}
    (hc : decodeCompact (b :: t) = some (n, rest)) (g : Nat)
    (acc : List DecodedExtrinsic) :
    batchGo (g + 1) acc (b :: t) =
      if rest.length < n then .error (acc.reverse, .truncated n rest.length)
      else
        match decodeSingleExtrinsic (rest.take n) with
        | .error e => .error (acc.reverse, e)
        | .ok ext => batchGo g (ext :: acc) (rest.drop n) := by
  simp only [batchGo, hc]

/-- The fuel argument of `batchGo` is irrelevant as long as it exceeds the
input length. -/
theorem batchGo_fuel :
    ∀ (f1 f2 : Nat) (data : Bytes) (acc : List DecodedExtrinsic),
      data.length < f1 → data.length < f2 →
      batchGo f1 acc data = batchGo f2 acc data := by
  intro f1
  induction f1 with
  | zero => intro f2 data acc h1 _; omega
  | succ g ih =>
    intro f2 data acc h1 h2
    match data with
    | [] =>
      rw [batchGo_nil, batchGo_nil]
    | b :: t =>
      match f2 with
      | 0 => omega
      | f2' + 1 =>
        cases hc : decodeCompact (b :: t) with
        | none => rw [batchGo_cons_none hc, batchGo_cons_none hc]
        | some p =>
          obtain ⟨n, rest⟩ := p
          have hrl : rest.length < t.length + 1 := by
            simpa using decodeCompact_length hc
          rw [batchGo_cons_some hc, batchGo_cons_some hc]
          split
          · rfl
          · cases hse : decodeSingleExtrinsic (rest.take n) with
            | error e => simp only [hse]
            | ok ext =>
              simp only [hse]
              apply ih
              · simp only [List.length_drop]
                simp only [List.length_cons] at h1
                omega
              · simp only [List.length_drop]
                simp only [List.length_cons] at h2
                omega

/-- When the batch decoder fails, the reported list is the decode of a
prefix of the input: the input splits into a prefix that decodes
successfully to exactly that list, and a remainder. -/
theorem batchGo_error_prefix :
    ∀ (fuel : Nat) (data : Bytes), data.length < fuel →
      ∀ (acc decoded : List DecodedExtrinsic) (e : DecodeError),
      batchGo fuel acc data = .error (decoded, e) →
      ∃ pre suf, data = pre ++ suf ∧ batchGo fuel acc pre = .ok decoded := by
  intro fuel
  induction fuel with
  | zero => intro data h; omega
  | succ g ih =>
    intro data hlen acc decoded e h
    match data with
    | [] => rw [batchGo_nil] at h; exact absurd h (by simp)
    | b :: t =>
      cases hc : decodeCompact (b :: t) with
      | none =>
        rw [batchGo_cons_none hc] at h
        simp only [Except.error.injEq, Prod.mk.injEq] at h
        refine ⟨[], b :: t, rfl, ?_⟩
        rw [batchGo_nil, h.1]
      | some p =>
        obtain ⟨n, rest⟩ := p
        rw [batchGo_cons_some hc] at h
        by_cases hlt : rest.length < n
        · rw [if_pos hlt] at h
          simp only [Except.error.injEq, Prod.mk.injEq] at h
          refine ⟨[], b :: t, rfl, ?_⟩
          rw [batchGo_nil, h.1]
        · rw [if_neg hlt] at h
          cases hse : decodeSingleExtrinsic (rest.take n) with
          | error e0 =>
            simp only [hse, Except.error.injEq, Prod.mk.injEq] at h
            refine ⟨[], b :: t, rfl, ?_⟩
            rw [batchGo_nil, h.1]
          | ok ext =>
            simp only [hse] at h
            have hrl : rest.length < t.length + 1 := by
              simpa using decodeCompact_length hc
            have hg : (rest.drop n).length < g := by
              simp only [List.length_drop]
              simp only [List.length_cons] at hlen
              omega
            obtain ⟨pre2, suf2, hsplit, hok⟩ :=
              ih (rest.drop n) hg (ext :: acc) decoded e h
            obtain ⟨c, hcs, hcdet⟩ := decodeCompact_prefix hc
            have htk : (rest.take n).length = n := by
              simp [List.length_take]; omega
            refine ⟨c ++ (rest.take n ++ pre2), suf2, ?_, ?_⟩
            · rw [hcs]
              conv_lhs => rw [← List.take_append_drop n rest]
              rw [hsplit]
              simp [List.append_assoc]
            · have hcne := decodeCompact_prefix_ne_nil hcdet
              match c, hcne with
              | c0 :: cs, _ =>
                have hdet2 := hcdet (rest.take n ++ pre2)
                simp only [List.cons_append] at hdet2 ⊢
                rw [batchGo_cons_some hdet2]
                have hnlt : ¬ (rest.take n ++ pre2).length < n := by
                  simp [htk]
                rw [if_neg hnlt]
                rw [List.take_left' htk]
                simp only [hse]
                rw [List.drop_left' htk]
                exact hok

/-- The batch-contract at the entry point: on failure, the reported list is
the decode of a prefix of the input. -/
theorem decodeExtrinsicsBatch_error_prefix {data : Bytes}
    {decoded : List DecodedExtrinsic} {e : DecodeError}
    (h : decodeExtrinsicsBatch data = .error (decoded, e)) :
    ∃ pre suf, data = pre ++ suf ∧ decodeExtrinsicsBatch pre = .ok decoded := by
  obtain ⟨pre, suf, hsplit, hok⟩ :=
    batchGo_error_prefix (data.length + 1) data (by omega) [] decoded e h
  refine ⟨pre, suf, hsplit, ?_⟩
  have hple : pre.length ≤ data.length := by
    rw [hsplit]; simp
  rw [decodeExtrinsicsBatch,
    batchGo_fuel (pre.length + 1) (data.length + 1) pre [] (by omega) (by omega)]
  exact hok

/-- Membership characterized through the entries of the list. -/
theorem assocContains_iff {α : Type} (m : List (SpecVersion × α))
    (w : SpecVersion) :
    assocContains m w = true ↔ ∃ p ∈ m, p.1 = w := by
  simp [assocContains, List.any_eq_true, beq_iff_eq]

/-- Membership in an association list after insertion: the inserted key, or a
key that was already present. -/
theorem assocContains_insert {α : Type} (m : List (SpecVersion × α))
    (k : SpecVersion) (x : α) (w : SpecVersion) :
    assocContains (assocInsert m k x) w = true ↔
      w = k ∨ assocContains m w = true := by
  constructor
  · intro h
    rw [assocContains_iff] at h
    obtain ⟨p, hp, hpw⟩ := h
    simp only [assocInsert, List.mem_cons, List.mem_filter] at hp
    rcases hp with h1 | ⟨h2, _⟩
    · left; rw [← hpw, h1]
    · right; rw [assocContains_iff]; exact ⟨p, h2, hpw⟩
  · intro h
    rw [assocContains_iff]
    rcases h with h1 | h1
    · exact ⟨(k, x), by simp [assocInsert], h1.symm⟩
    · rw [assocContains_iff] at h1
      obtain ⟨p, hp, hpw⟩ := h1
      by_cases hwk : w = k
      · exact ⟨(k, x), by simp [assocInsert], hwk.symm⟩
      · refine ⟨p, ?_, hpw⟩
        simp only [assocInsert, List.mem_cons, List.mem_filter]
        right
        refine ⟨hp, ?_⟩
        rw [hpw]
        simp [hwk]

/-- Looking up the just-inserted key returns the new value. -/
theorem assocLookup_insert_self {α : Type} (m : List (SpecVersion × α))
    (k : SpecVersion) (x : α) :
    assocLookup (assocInsert m k x) k = some x := by
  simp [assocInsert, assocLookup]

/-- Filtering out one key does not change lookups of other keys. -/
theorem assocLookup_filter_ne {α : Type} (m : List (SpecVersion × α))
    (k w : SpecVersion) (hw : w ≠ k) :
    assocLookup (m.filter (fun p => !(p.1 == k))) w = assocLookup m w := by
  induction m with
  | nil => rfl
  | cons p t ih =>
    by_cases hp : p.1 = k
    · rw [List.filter_cons, if_neg (by simp [hp])]
      rw [ih]
      have : ¬ (p.1 == w) = true := by simp [hp]; exact fun h => hw h.symm
      simp [assocLookup, this]
    · rw [List.filter_cons, if_pos (by simp [hp])]
      by_cases hpw : p.1 = w
      · simp [assocLookup, hpw]
      · have : ¬ (p.1 == w) = true := by simp [hpw]
        simp [assocLookup, this, ih]

/-- Insertion does not change lookups of other keys. -/
theorem assocLookup_insert_ne {α : Type} (m : List (SpecVersion × α))
    (k : SpecVersion) (x : α) (w : SpecVersion) (hw : w ≠ k) :
    assocLookup (assocInsert m k x) w = assocLookup m w := by
  have : ¬ (k == w) = true := by simp; exact fun h => hw h.symm
  simp only [assocInsert, assocLookup, this, if_neg]
  exact assocLookup_filter_ne m k w hw

/-- After insertion a key has exactly one binding. -/
theorem countKey_insert {α : Type} (m : List (SpecVersion × α))
    (k : SpecVersion) (x : α) :
    countKey (assocInsert m k x) k = 1 := by
  have hnil : (m.filter (fun p => !(p.1 == k))).filter (fun p => p.1 == k) = [] := by
    induction m with
    | nil => rfl
    | cons p t ih =>
      rw [List.filter_cons]
      by_cases hp : p.1 = k
      · rw [if_neg (by simp [hp])]; exact ih
      · rw [if_pos (by simp [hp]), List.filter_cons, if_neg (by simp [hp])]
        exact ih
  simp [countKey, assocInsert, List.filter_cons, hnil]

/-- `find?` returns the first element satisfying the predicate: the list
splits into a prefix of failures, the hit, and a remainder. -/
theorem find?_eq_some_first {α : Type} (p : α → Bool) (l : List α) (a : α) :
    l.find? p = some a ↔
      ∃ pre suf, l = pre ++ a :: suf ∧ p a = true ∧
        ∀ x ∈ pre, p x = false := by
  induction l with
  | nil =>
    simp only [List.find?_nil]
    constructor
    · intro h; cases h
    · rintro ⟨pre, suf, h, -, -⟩
      exact absurd h (by simp)
  | cons b t ih =>
    by_cases hb : p b = true
    · rw [List.find?_cons_of_pos _ hb]
      constructor
      · intro h
        cases h
        exact ⟨[], t, rfl, hb, by simp⟩
      · rintro ⟨pre, suf, hsplit, hpa, hpre⟩
        match pre, hsplit with
        | [], hsplit =>
          simp only [List.nil_append, List.cons.injEq] at hsplit
          rw [hsplit.1]
        | q :: pre2, hsplit =>
          simp only [List.cons_append, List.cons.injEq] at hsplit
          have : p b = false := hsplit.1 ▸ hpre q (by simp)
          rw [this] at hb
          cases hb
    · have hb2 : p b = false := by
        cases hpb : p b
        · rfl
        · exact absurd hpb hb
      rw [List.find?_cons_of_neg _ (by simp [hb2])]
      rw [ih]
      constructor
      · rintro ⟨pre, suf, hsplit, hpa, hpre⟩
        refine ⟨b :: pre, suf, by simp [hsplit], hpa, ?_⟩
        intro x hx
        simp only [List.mem_cons] at hx
        rcases hx with h1 | h1
        · rw [h1]; exact hb2
        · exact hpre x h1
      · rintro ⟨pre, suf, hsplit, hpa, hpre⟩
        match pre, hsplit with
        | [], hsplit =>
          simp only [List.nil_append, List.cons.injEq] at hsplit
          rw [← hsplit.1] at hpa
          rw [hpa] at hb2
          cases hb2
        | q :: pre2, hsplit =>
          simp only [List.cons_append, List.cons.injEq] at hsplit
          refine ⟨pre2, suf, hsplit.2, hpa, ?_⟩
          intro x hx
          exact hpre x (by simp [hx])

/-- A successful registration presupposes that the metadata blob decoded. -/
theorem register_ok_decodes {d : Decoder} {v : SpecVersion} {b : Bytes}
    {d' : Decoder} (h : d.register_version v b = .ok d') :
    ∃ md, decodeRuntimeMetadataPrefixed b = some md := by
  rw [Decoder.register_version] at h
  cases hm : decodeRuntimeMetadataPrefixed b with
  | none => rw [hm] at h; cases h
  | some md => exact ⟨md, rfl⟩

/-- Effect of a successful `register_version` call: the blob's own version
selects the regime, the selected table gains the binding, and the other
regime's state is untouched. -/
theorem register_version_ok_cases {d : Decoder} {v : SpecVersion} {b : Bytes}
    {md : RuntimeMetadataPrefixed} {d' : Decoder}
    (hm : decodeRuntimeMetadataPrefixed b = some md)
    (h : d.register_version v b = .ok d') :
    (14 ≤ md.version ∧
      d'.current_metadata = assocInsert d.current_metadata v md ∧
      d'.legacy_decoder = d.legacy_decoder) ∨
    (md.version < 14 ∧ 8 ≤ md.version ∧
      d'.legacy_decoder.versions = assocInsert d.legacy_decoder.versions v md ∧
      d'.current_metadata = d.current_metadata) := by
  simp only [Decoder.register_version, hm] at h
  by_cases h14 : 14 ≤ md.version
  · rw [if_pos h14] at h
    rw [currentFromRuntimeMetadata, if_pos h14] at h
    simp only [Except.ok.injEq] at h
    left
    refine ⟨h14, ?_, ?_⟩ <;> rw [← h]
  · rw [if_neg h14] at h
    by_cases h8 : 8 ≤ md.version ∧ md.version ≤ 13
    · rw [legacyFromRuntimeMetadata, if_pos h8] at h
      simp only [LegacyDecoder.register_version] at h
      simp only [Except.ok.injEq] at h
      right
      refine ⟨by omega, h8.1, ?_, ?_⟩ <;> rw [← h]
    · rw [legacyFromRuntimeMetadata, if_neg h8] at h
      cases h

/-- Unfolding `regApply` over the head call. -/
theorem regApply_cons (d : Decoder) (p : SpecVersion × Bytes)
    (calls : List (SpecVersion × Bytes)) :
    regApply d (p :: calls) =
      regApply
        (match d.register_version p.1 p.2 with
         | .ok d2 => d2
         | .error _ => d) calls := rfl

/-- A version present in the current table after a call sequence was either
present before, or some call registered it with a current-regime (14+)
blob. -/
theorem regApply_current_mem :
    ∀ (calls : List (SpecVersion × Bytes)) (d : Decoder) (w : SpecVersion),
      assocContains (regApply d calls).current_metadata w = true →
      assocContains d.current_metadata w = true ∨
        ∃ b md, (w, b) ∈ calls ∧
          decodeRuntimeMetadataPrefixed b = some md ∧ 14 ≤ md.version := by
  intro calls
  induction calls with
  | nil => intro d w h; exact Or.inl h
  | cons p t ih =>
    intro d w h
    rw [regApply_cons] at h
    cases hreg : d.register_version p.1 p.2 with
    | ok d2 =>
      simp only [hreg] at h
      rcases ih d2 w h with h1 | ⟨b, md, hmem, hdec, h14⟩
      · obtain ⟨md0, hm0⟩ := register_ok_decodes hreg
        rcases register_version_ok_cases hm0 hreg with
          ⟨h14, hcur, _⟩ | ⟨_, _, _, hcur⟩
        · rw [hcur] at h1
          rcases (assocContains_insert _ _ _ _).1 h1 with h2 | h2
          · right
            refine ⟨p.2, md0, ?_, hm0, h14⟩
            rw [h2]
            exact List.mem_cons_self p t
          · exact Or.inl h2
        · rw [hcur] at h1
          exact Or.inl h1
      · exact Or.inr ⟨b, md, List.mem_cons_of_mem p hmem, hdec, h14⟩
    | error e =>
      simp only [hreg] at h
      rcases ih d w h with h1 | ⟨b, md, hmem, hdec, h14⟩
      · exact Or.inl h1
      · exact Or.inr ⟨b, md, List.mem_cons_of_mem p hmem, hdec, h14⟩

/-- A version known to the legacy decoder after a call sequence was either
known before, or some call registered it with a legacy-regime (< 14)
blob. -/
theorem regApply_legacy_mem :
    ∀ (calls : List (SpecVersion × Bytes)) (d : Decoder) (w : SpecVersion),
      (regApply d calls).legacy_decoder.has_version w = true →
      d.legacy_decoder.has_version w = true ∨
        ∃ b md, (w, b) ∈ calls ∧
          decodeRuntimeMetadataPrefixed b = some md ∧ md.version < 14 := by
  intro calls
  induction calls with
  | nil => intro d w h; exact Or.inl h
  | cons p t ih =>
    intro d w h
    rw [regApply_cons] at h
    cases hreg : d.register_version p.1 p.2 with
    | ok d2 =>
      simp only [hreg] at h
      rcases ih d2 w h with h1 | ⟨b, md, hmem, hdec, hlt⟩
      · obtain ⟨md0, hm0⟩ := register_ok_decodes hreg
        rcases register_version_ok_cases hm0 hreg with
          ⟨_, _, hleg⟩ | ⟨hlt, _, hleg, _⟩
        · rw [hleg] at h1
          exact Or.inl h1
        · rw [LegacyDecoder.has_version, hleg] at h1
          rcases (assocContains_insert _ _ _ _).1 h1 with h2 | h2
          · right
            refine ⟨p.2, md0, ?_, hm0, hlt⟩
            rw [h2]
            exact List.mem_cons_self p t
          · exact Or.inl h2
      · exact Or.inr ⟨b, md, List.mem_cons_of_mem p hmem, hdec, hlt⟩
    | error e =>
      simp only [hreg] at h
      rcases ih d w h with h1 | ⟨b, md, hmem, hdec, hlt⟩
      · exact Or.inl h1
      · exact Or.inr ⟨b, md, List.mem_cons_of_mem p hmem, hdec, hlt⟩

/-- Output of the current branch is entirely `Current`-wrapped. -/
theorem all_isCurrentWrapped_map (l : List DecodedExtrinsic) :
    (l.map LegacyOrCurrent.Current).all isCurrentWrapped = true := by
  induction l with
  | nil => rfl
  | cons x t ih => simp [isCurrentWrapped, ih]

/-- Output of the legacy branch is entirely `Legacy`-wrapped. -/
theorem all_isLegacyWrapped_map (l : List DecodedExtrinsic) :
    (l.map LegacyOrCurrent.Legacy).all isLegacyWrapped = true := by
  induction l with
  | nil => rfl
  | cons x t ih => simp [isLegacyWrapped, ih]

/-- When the spec version sits in the current table, the result of
`decode_extrinsics` visibly comes from the current regime. -/
theorem usesCurrentRegime_of_contains (d : Decoder) (v : SpecVersion)
    (data : Bytes) (h : assocContains d.current_metadata v = true) :
    usesCurrentRegime (d.decode_extrinsics v data) = true := by
  rw [Decoder.decode_extrinsics, if_pos h]
  cases hb : decodeExtrinsicsBatch data with
  | ok l => simp [usesCurrentRegime, all_isCurrentWrapped_map]
  | error pe =>
    obtain ⟨exts, e⟩ := pe
    simp [usesCurrentRegime]

/-- When the spec version is absent from the current table but known to the
legacy decoder, the result of `decode_extrinsics` visibly comes from the
legacy regime. -/
theorem usesLegacyRegime_of_legacy (d : Decoder) (v : SpecVersion)
    (data : Bytes) (hcur : assocContains d.current_metadata v = false)
    (hleg : d.legacy_decoder.has_version v = true) :
    usesLegacyRegime (d.decode_extrinsics v data) = true := by
  rw [Decoder.decode_extrinsics, if_neg (by simp [hcur]), if_neg (by simp [hleg])]
  cases hb : d.legacy_decoder.decode_extrinsics v data with
  | ok l => simp [usesLegacyRegime, all_isLegacyWrapped_map]
  | error pe =>
    obtain ⟨exts, e⟩ := pe
    simp [usesLegacyRegime]

/-- A registered version never produces the routing failure in
`decode_extrinsics`. -/
theorem decode_extrinsics_ne_svnf (d : Decoder) (v : SpecVersion) (data : Bytes)
    (h : d.has_version v = true) :
    d.decode_extrinsics v data ≠ .error (.SpecVersionNotFound v) := by
  rw [Decoder.has_version, Bool.or_eq_true] at h
  by_cases hcur : assocContains d.current_metadata v = true
  · rw [Decoder.decode_extrinsics, if_pos hcur]
    cases hb : decodeExtrinsicsBatch data with
    | ok l => simp
    | error pe => obtain ⟨exts, e⟩ := pe; simp
  · have hleg : d.legacy_decoder.has_version v = true := by
      rcases h with h1 | h1
      · exact absurd h1 hcur
      · exact h1
    rw [Decoder.decode_extrinsics, if_neg hcur, if_neg (by simp [hleg])]
    cases hb : d.legacy_decoder.decode_extrinsics v data with
    | ok l => simp
    | error pe => obtain ⟨exts, e⟩ := pe; simp

/-- A registered version never produces the routing failure in
`decode_storage`. -/
theorem decode_storage_ne_svnf (d : Decoder) (v : SpecVersion) (key : Bytes)
    (val : Option Bytes) (h : d.has_version v = true) :
    d.decode_storage v key val ≠ .error (.SpecVersionNotFound v) := by
  rw [Decoder.has_version, Bool.or_eq_true] at h
  by_cases hcur : assocContains d.current_metadata v = true
  · rw [Decoder.decode_storage, if_pos hcur]
    cases hb : decodeStorageEntry key val with
    | ok r => simp
    | error e => simp
  · have hleg : d.legacy_decoder.has_version v = true := by
      rcases h with h1 | h1
      · exact absurd h1 hcur
      · exact h1
    rw [Decoder.decode_storage, if_neg hcur, if_neg (by simp [hleg])]
    cases hb : d.legacy_decoder.decode_storage v key val with
    | ok r => simp
    | error e => simp

/-- An unregistered version produces exactly the routing failure in
`decode_extrinsics`. -/
theorem decode_extrinsics_svnf (d : Decoder) (v : SpecVersion) (data : Bytes)
    (h : d.has_version v = false) :
    d.decode_extrinsics v data = .error (.SpecVersionNotFound v) := by
  rw [Decoder.has_version, Bool.or_eq_false_iff] at h
  rw [Decoder.decode_extrinsics, if_neg (by simp [h.1]), if_pos (by simp [h.2])]

/-- An unregistered version produces exactly the routing failure in
`decode_storage`. -/
theorem decode_storage_svnf (d : Decoder) (v : SpecVersion) (key : Bytes)
    (val : Option Bytes) (h : d.has_version v = false) :
    d.decode_storage v key val = .error (.SpecVersionNotFound v) := by
  rw [Decoder.has_version, Bool.or_eq_false_iff] at h
  rw [Decoder.decode_storage, if_neg (by simp [h.1]), if_pos (by simp [h.2])]

/-- C1: a spec version not registered in either regime makes
`decode_extrinsics` and `decode_storage` return `SpecVersionNotFound` with
that version, regardless of the input bytes. -/
theorem c1_unregistered_version_is_not_found (d : Decoder) (v : SpecVersion)
    (hcur : assocContains d.current_metadata v = false)
    (hleg : d.legacy_decoder.has_version v = false) :
    (∀ data : Bytes,
      d.decode_extrinsics v data = .error (.SpecVersionNotFound v)) ∧
    (∀ (key : Bytes) (val : Option Bytes),
      d.decode_storage v key val = .error (.SpecVersionNotFound v)) := by
  have hv : d.has_version v = false := by
    rw [Decoder.has_version, hcur, hleg]
    rfl
  exact ⟨fun data => decode_extrinsics_svnf d v data hv,
    fun key val => decode_storage_svnf d v key val hv⟩

/-- Witness for C1: a fresh decoder knows no version, and decoding with
spec version 9999 reports `SpecVersionNotFound 9999`. -/
theorem c1_unregistered_version_is_not_found_witness :
    Decoder.new.decode_extrinsics 9999 [1, 2, 3] =
      .error (.SpecVersionNotFound 9999) ∧
    Decoder.new.decode_storage 9999 [7] none =
      .error (.SpecVersionNotFound 9999) :=
  ⟨(c1_unregistered_version_is_not_found Decoder.new 9999 rfl rfl).1 [1, 2, 3],
   (c1_unregistered_version_is_not_found Decoder.new 9999 rfl rfl).2 [7] none⟩

/-- C3: `has_version` is true exactly when a decode call with that version
does not return `SpecVersionNotFound` for it. -/
theorem c3_has_version_iff_decode_found (d : Decoder) (v : SpecVersion)
    (data key : Bytes) (val : Option Bytes) :
    (d.has_version v = true ↔
      d.decode_extrinsics v data ≠ .error (.SpecVersionNotFound v)) ∧
    (d.has_version v = true ↔
      d.decode_storage v key val ≠ .error (.SpecVersionNotFound v)) := by
  constructor
  · constructor
    · intro h
      exact decode_extrinsics_ne_svnf d v data h
    · intro h
      cases hv : d.has_version v with
      | true => rfl
      | false => exact absurd (decode_extrinsics_svnf d v data hv) h
  · constructor
    · intro h
      exact decode_storage_ne_svnf d v key val h
    · intro h
      cases hv : d.has_version v with
      | true => rfl
      | false => exact absurd (decode_storage_svnf d v key val hv) h

/-- Witness for C3 at a concrete state: a decoder with version 5 registered
currently, probed at versions 5 and 6. -/
theorem c3_has_version_iff_decode_found_witness :
    ((⟨⟨[]⟩, [(5, ⟨14, []⟩)]⟩ : Decoder).has_version 5 = true ↔
      (⟨⟨[]⟩, [(5, ⟨14, []⟩)]⟩ : Decoder).decode_extrinsics 5 [] ≠
        .error (.SpecVersionNotFound 5)) ∧
    ((⟨⟨[]⟩, [(5, ⟨14, []⟩)]⟩ : Decoder).has_version 5 = true ↔
      (⟨⟨[]⟩, [(5, ⟨14, []⟩)]⟩ : Decoder).decode_storage 5 [] none ≠
        .error (.SpecVersionNotFound 5)) :=
  c3_has_version_iff_decode_found ⟨⟨[]⟩, [(5, ⟨14, []⟩)]⟩ 5 [] [] none

/-- C9: decoding is deterministic — equal inputs against the same decoder
state give equal outputs, for both decode entry points. -/
theorem c9_decode_deterministic (d : Decoder) (v : SpecVersion)
    (b1 b2 key1 key2 : Bytes) (val1 val2 : Option Bytes)
    (hb : b1 = b2) (hk : key1 = key2) (hv : val1 = val2) :
    d.decode_extrinsics v b1 = d.decode_extrinsics v b2 ∧
    d.decode_storage v key1 val1 = d.decode_storage v key2 val2 := by
  subst hb
  subst hk
  subst hv
  exact ⟨rfl, rfl⟩

/-- Witness for C9 at concrete inputs. -/
theorem c9_decode_deterministic_witness :
    Decoder.new.decode_extrinsics 1 [12, 4, 0, 0] =
      Decoder.new.decode_extrinsics 1 [12, 4, 0, 0] ∧
    Decoder.new.decode_storage 1 [3] none = Decoder.new.decode_storage 1 [3] none :=
  c9_decode_deterministic Decoder.new 1 [12, 4, 0, 0] [12, 4, 0, 0] [3] [3]
    none none rfl rfl rfl

/-- C10: when a version sits in the current table, decode results do not
depend on the legacy decoder at all, and the result visibly comes from the
current regime — the legacy decoder is only consulted when the version is
absent from the current table. -/
theorem c10_current_table_consulted_first (leg leg2 : LegacyDecoder)
    (cur : List (SpecVersion × CurrentMetadata)) (v : SpecVersion)
    (data key : Bytes) (val : Option Bytes)
    (h : assocContains cur v = true) :
    Decoder.decode_extrinsics ⟨leg, cur⟩ v data =
      Decoder.decode_extrinsics ⟨leg2, cur⟩ v data ∧
    Decoder.decode_storage ⟨leg, cur⟩ v key val =
      Decoder.decode_storage ⟨leg2, cur⟩ v key val ∧
    usesCurrentRegime (Decoder.decode_extrinsics ⟨leg, cur⟩ v data) = true := by
  refine ⟨?_, ?_, usesCurrentRegime_of_contains ⟨leg, cur⟩ v data h⟩
  · simp only [Decoder.decode_extrinsics, h, if_true]
  · simp only [Decoder.decode_storage, h, if_true]

/-- Witness for C10: version 5 registered in both regimes with different
metadata; decode results ignore the legacy side. -/
theorem c10_current_table_consulted_first_witness :
    Decoder.decode_extrinsics ⟨⟨[(5, ⟨13, []⟩)]⟩, [(5, ⟨14, []⟩)]⟩ 5 [12, 4, 0, 0] =
      Decoder.decode_extrinsics ⟨⟨[]⟩, [(5, ⟨14, []⟩)]⟩ 5 [12, 4, 0, 0] ∧
    Decoder.decode_storage ⟨⟨[(5, ⟨13, []⟩)]⟩, [(5, ⟨14, []⟩)]⟩ 5 [9] none =
      Decoder.decode_storage ⟨⟨[]⟩, [(5, ⟨14, []⟩)]⟩ 5 [9] none ∧
    usesCurrentRegime
      (Decoder.decode_extrinsics ⟨⟨[(5, ⟨13, []⟩)]⟩, [(5, ⟨14, []⟩)]⟩ 5
        [12, 4, 0, 0]) = true :=
  c10_current_table_consulted_first ⟨[(5, ⟨13, []⟩)]⟩ ⟨[]⟩ [(5, ⟨14, []⟩)] 5
    [12, 4, 0, 0] [9] none rfl

/-- C4: for a registered version (either regime), a failing
`decode_extrinsics` call carries the successfully-decoded prefix: the error
holds a list that is exactly the decode of a prefix of the input bytes. -/
theorem c4_error_carries_decoded_prefix (d : Decoder) (v : SpecVersion)
    (data : Bytes) (e : Error) (hv : d.has_version v = true)
    (he : d.decode_extrinsics v data = .error e) :
    ∃ decoded pre suf, errExts e = some decoded ∧ data = pre ++ suf ∧
      d.decode_extrinsics v pre = .ok decoded := by
  by_cases hcur : assocContains d.current_metadata v = true
  · rw [Decoder.decode_extrinsics, if_pos hcur] at he
    cases hb : decodeExtrinsicsBatch data with
    | ok l =>
      simp only [hb] at he
      exact absurd he (by simp)
    | error pe =>
      obtain ⟨exts, e0⟩ := pe
      simp only [hb, Except.error.injEq] at he
      obtain ⟨pre, suf, hsplit, hok⟩ := decodeExtrinsicsBatch_error_prefix hb
      refine ⟨exts.map LegacyOrCurrent.Current, pre, suf, ?_, hsplit, ?_⟩
      · rw [← he]
        rfl
      · rw [Decoder.decode_extrinsics, if_pos hcur, hok]
  · have hleg : d.legacy_decoder.has_version v = true := by
      rw [Decoder.has_version, Bool.or_eq_true] at hv
      rcases hv with h1 | h1
      · exact absurd h1 hcur
      · exact h1
    rw [Decoder.decode_extrinsics, if_neg hcur, if_neg (by simp [hleg])] at he
    cases hb : d.legacy_decoder.decode_extrinsics v data with
    | ok l =>
      simp only [hb] at he
      exact absurd he (by simp)
    | error pe =>
      obtain ⟨exts, e0⟩ := pe
      simp only [hb, Except.error.injEq] at he
      have hb2 : decodeExtrinsicsBatch data = .error (exts, e0) := hb
      obtain ⟨pre, suf, hsplit, hok⟩ := decodeExtrinsicsBatch_error_prefix hb2
      refine ⟨exts.map LegacyOrCurrent.Legacy, pre, suf, ?_, hsplit, ?_⟩
      · rw [← he]
        rfl
      · rw [Decoder.decode_extrinsics, if_neg hcur, if_neg (by simp [hleg])]
        have hok2 : d.legacy_decoder.decode_extrinsics v pre = .ok exts := hok
        rw [hok2]

/-- Witness for C4: a current-regime decoder, a two-frame batch whose second
frame has an unsupported version byte; the error carries the first frame's
decode, which is the decode of the prefix `[12, 4, 0, 0]`. -/
theorem c4_error_carries_decoded_prefix_witness :
    (⟨⟨[]⟩, [(5, ⟨14, []⟩)]⟩ : Decoder).has_version 5 = true ∧
    (⟨⟨[]⟩, [(5, ⟨14, []⟩)]⟩ : Decoder).decode_extrinsics 5 [12, 4, 0, 0, 4, 5] =
      .error (.V14 (.unsupportedTxVersion 5) (some [⟨4, false, 0, 0, []⟩])) ∧
    ∃ decoded pre suf,
      errExts (.V14 (.unsupportedTxVersion 5) (some [⟨4, false, 0, 0, []⟩])) =
        some decoded ∧
      ([12, 4, 0, 0, 4, 5] : Bytes) = pre ++ suf ∧
      (⟨⟨[]⟩, [(5, ⟨14, []⟩)]⟩ : Decoder).decode_extrinsics 5 pre = .ok decoded :=
  ⟨rfl, rfl,
   c4_error_carries_decoded_prefix ⟨⟨[]⟩, [(5, ⟨14, []⟩)]⟩ 5 [12, 4, 0, 0, 4, 5]
     (.V14 (.unsupportedTxVersion 5) (some [⟨4, false, 0, 0, []⟩])) rfl rfl⟩

/-- Counterexample to C5 as stated: register version 5 with a current (v14)
blob, then re-register it with a legacy (v13) blob.  The legacy
registration takes effect (`has_version` on the legacy decoder is true),
yet a subsequent decode still uses the current regime — its output is
`Current`-wrapped, not legacy — because the current table is consulted
first. -/
theorem c5_counterexample :
    (regApply Decoder.new [(5, currentBlob14), (5, legacyBlob13)]
        ).legacy_decoder.has_version 5 = true ∧
    (regApply Decoder.new [(5, currentBlob14), (5, legacyBlob13)]
        ).decode_extrinsics 5 [12, 4, 0, 0] =
      .ok [LegacyOrCurrent.Current ⟨4, false, 0, 0, []⟩] ∧
    usesLegacyRegime
      ((regApply Decoder.new [(5, currentBlob14), (5, legacyBlob13)]
        ).decode_extrinsics 5 [12, 4, 0, 0]) = false :=
  ⟨rfl, rfl, rfl⟩

/-- C5 (amended): `register_version` routes by the blob's own metadata
version — 14+ is stored in the current table, below 14 goes to the legacy
decoder — and subsequent decodes for that spec version use the
corresponding regime, except that a version already present in the current
table keeps decoding under the current regime. -/
theorem c5_register_routes_by_metadata_version (d : Decoder) (v : SpecVersion)
    (b : Bytes) (md : RuntimeMetadataPrefixed) (d2 : Decoder)
    (hm : decodeRuntimeMetadataPrefixed b = some md)
    (hr : d.register_version v b = .ok d2) :
    (14 ≤ md.version →
      assocContains d2.current_metadata v = true ∧
      d2.legacy_decoder = d.legacy_decoder ∧
      ∀ data, usesCurrentRegime (d2.decode_extrinsics v data) = true) ∧
    (md.version < 14 →
      d2.legacy_decoder.has_version v = true ∧
      d2.current_metadata = d.current_metadata ∧
      (assocContains d.current_metadata v = false →
        ∀ data, usesLegacyRegime (d2.decode_extrinsics v data) = true)) := by
  rcases register_version_ok_cases hm hr with
    ⟨h14, hcur, hleg⟩ | ⟨hlt, h8, hleg, hcur⟩
  · constructor
    · intro _
      have hc : assocContains d2.current_metadata v = true := by
        rw [hcur]
        exact (assocContains_insert _ _ _ _).2 (Or.inl rfl)
      exact ⟨hc, hleg, fun data => usesCurrentRegime_of_contains d2 v data hc⟩
    · intro h
      omega
  · constructor
    · intro h
      omega
    · intro _
      have hl : d2.legacy_decoder.has_version v = true := by
        rw [LegacyDecoder.has_version, hleg]
        exact (assocContains_insert _ _ _ _).2 (Or.inl rfl)
      refine ⟨hl, hcur, fun hnc data => ?_⟩
      exact usesLegacyRegime_of_legacy d2 v data (by rw [hcur]; exact hnc) hl

/-- Witness for the amended C5: registering a v14 blob on a fresh decoder
routes to the current table and decodes under the current regime. -/
theorem c5_register_routes_by_metadata_version_witness :
    assocContains
        ((⟨⟨[]⟩, [(5, ⟨14, []⟩)]⟩ : Decoder)).current_metadata 5 = true ∧
    usesCurrentRegime
      ((⟨⟨[]⟩, [(5, ⟨14, []⟩)]⟩ : Decoder).decode_extrinsics 5 [12, 4, 0, 0]) =
        true :=
  have h := (c5_register_routes_by_metadata_version Decoder.new 5 currentBlob14
    ⟨14, []⟩ ⟨⟨[]⟩, [(5, ⟨14, []⟩)]⟩ rfl rfl).1 (by decide)
  ⟨h.1, h.2.2 [12, 4, 0, 0]⟩

/-- Counterexample to C2 as stated: register version 5 with a legacy (v13)
blob and then with a current (v14) blob; afterwards version 5 is present
in the current table and still known to the legacy decoder — both regimes
at once. -/
theorem c2_counterexample :
    assocContains
        (regApply Decoder.new [(5, legacyBlob13), (5, currentBlob14)]
          ).current_metadata 5 = true ∧
    (regApply Decoder.new [(5, legacyBlob13), (5, currentBlob14)]
        ).legacy_decoder.has_version 5 = true := by
  exact ⟨rfl, rfl⟩

/-- C2 (amended): after any sequence of `register_version` calls in which no
spec version is given blobs of both regimes, no version is simultaneously
present in the current table and in the legacy decoder's table. -/
theorem c2_regime_exclusive_unless_mixed (calls : List (SpecVersion × Bytes))
    (hcons : ∀ p ∈ calls, ∀ q ∈ calls, p.1 = q.1 →
      blobRegime p.2 = blobRegime q.2) (v : SpecVersion) :
    ¬(assocContains (regApply Decoder.new calls).current_metadata v = true ∧
      (regApply Decoder.new calls).legacy_decoder.has_version v = true) := by
  rintro ⟨hc, hl⟩
  rcases regApply_current_mem calls Decoder.new v hc with
    h1 | ⟨b1, md1, hm1, hd1, h14⟩
  · exact absurd h1 (by simp [Decoder.new, assocContains])
  rcases regApply_legacy_mem calls Decoder.new v hl with
    h2 | ⟨b2, md2, hm2, hd2, hlt⟩
  · simp [Decoder.new, LegacyDecoder.has_version, assocContains] at h2
  have hreg := hcons (v, b1) hm1 (v, b2) hm2 rfl
  rw [blobRegime, blobRegime, hd1, hd2] at hreg
  simp only [Option.map_some', Option.some.injEq, decide_eq_decide] at hreg
  exact absurd (hreg.1 h14) (by omega)

/-- Witness for the amended C2: a single-regime call sequence leaves version
5 in at most one regime. -/
theorem c2_regime_exclusive_unless_mixed_witness :
    ¬(assocContains
        (regApply Decoder.new [(5, currentBlob14), (6, legacyBlob13)]
          ).current_metadata 5 = true ∧
      (regApply Decoder.new [(5, currentBlob14), (6, legacyBlob13)]
        ).legacy_decoder.has_version 5 = true) :=
  c2_regime_exclusive_unless_mixed [(5, currentBlob14), (6, legacyBlob13)]
    (by decide) 5

/-- Counterexample to C6 as stated: register version 5 with a legacy (v13)
blob, then re-register it with a current (v14) blob.  Both calls succeed,
but the previously stored legacy metadata is NOT replaced — it is still
stored under version 5, which now has two entries (one per regime). -/
theorem c6_counterexample :
    assocLookup
        (regApply Decoder.new [(5, legacyBlob13), (5, currentBlob14)]
          ).legacy_decoder.versions 5 = some ⟨13, []⟩ ∧
    assocContains
        (regApply Decoder.new [(5, legacyBlob13), (5, currentBlob14)]
          ).current_metadata 5 = true ∧
    countKey (regApply Decoder.new [(5, legacyBlob13), (5, currentBlob14)]
        ).current_metadata 5 +
      countKey (regApply Decoder.new [(5, legacyBlob13), (5, currentBlob14)]
        ).legacy_decoder.versions 5 = 2 :=
  ⟨rfl, rfl, rfl⟩

/-- C6 (amended): registration is additive — bindings of other versions are
untouched — and re-registering a version with a blob of the same regime
succeeds and silently replaces the stored metadata, leaving a single
binding in that regime's table; a re-registration under the other regime,
however, leaves the old entry in place (it is merely shadowed in
routing). -/
theorem c6_reregistration_replaces_within_regime (d : Decoder)
    (v : SpecVersion) (b1 b2 : Bytes) (md1 md2 : RuntimeMetadataPrefixed)
    (d1 d2 : Decoder)
    (hm1 : decodeRuntimeMetadataPrefixed b1 = some md1)
    (hm2 : decodeRuntimeMetadataPrefixed b2 = some md2)
    (hr1 : d.register_version v b1 = .ok d1)
    (hr2 : d1.register_version v b2 = .ok d2) :
    (14 ≤ md1.version → 14 ≤ md2.version →
      assocLookup d2.current_metadata v = some md2 ∧
      countKey d2.current_metadata v = 1 ∧
      d2.legacy_decoder = d.legacy_decoder) ∧
    (md1.version < 14 → md2.version < 14 →
      assocLookup d2.legacy_decoder.versions v = some md2 ∧
      countKey d2.legacy_decoder.versions v = 1 ∧
      d2.current_metadata = d.current_metadata) ∧
    (∀ w, w ≠ v →
      assocLookup d2.current_metadata w = assocLookup d.current_metadata w ∧
      assocLookup d2.legacy_decoder.versions w =
        assocLookup d.legacy_decoder.versions w) := by
  rcases register_version_ok_cases hm1 hr1 with
    ⟨h14a, hcur1, hleg1⟩ | ⟨hlta, h8a, hleg1, hcur1⟩ <;>
  rcases register_version_ok_cases hm2 hr2 with
    ⟨h14b, hcur2, hleg2⟩ | ⟨hltb, h8b, hleg2, hcur2⟩
  · refine ⟨fun _ _ => ?_, fun h _ => absurd h (by omega), fun w hw => ?_⟩
    · rw [hcur2, hleg2, hleg1]
      exact ⟨assocLookup_insert_self _ _ _, countKey_insert _ _ _, rfl⟩
    · rw [hcur2, hcur1, hleg2, hleg1]
      rw [assocLookup_insert_ne _ _ _ _ hw, assocLookup_insert_ne _ _ _ _ hw]
      exact ⟨rfl, rfl⟩
  · refine ⟨fun _ h => absurd h (by omega), fun h _ => absurd h (by omega),
      fun w hw => ?_⟩
    constructor
    · rw [hcur2, hcur1, assocLookup_insert_ne _ _ _ _ hw]
    · rw [hleg2, assocLookup_insert_ne _ _ _ _ hw, hleg1]
  · refine ⟨fun h _ => absurd h (by omega), fun _ h => absurd h (by omega),
      fun w hw => ?_⟩
    rw [hcur2, hcur1, hleg2, hleg1]
    rw [assocLookup_insert_ne _ _ _ _ hw, assocLookup_insert_ne _ _ _ _ hw]
    exact ⟨rfl, rfl⟩
  · refine ⟨fun h _ => absurd h (by omega), fun _ _ => ?_, fun w hw => ?_⟩
    · rw [hleg2, hleg1, hcur2, hcur1]
      exact ⟨assocLookup_insert_self _ _ _, countKey_insert _ _ _, rfl⟩
    · rw [hcur2, hcur1, hleg2, hleg1]
      rw [assocLookup_insert_ne _ _ _ _ hw]
      rw [assocLookup_insert_ne _ _ _ _ hw]
      exact ⟨rfl, rfl⟩

/-- Witness for the amended C6: re-registering version 5 with two current
(v14-regime) blobs in sequence leaves one binding carrying the second
blob's metadata. -/
theorem c6_reregistration_replaces_within_regime_witness :
    assocLookup
        ((⟨⟨[]⟩, [(5, ⟨15, [1]⟩)]⟩ : Decoder)).current_metadata 5 =
      some ⟨15, [1]⟩ ∧
    countKey ((⟨⟨[]⟩, [(5, ⟨15, [1]⟩)]⟩ : Decoder)).current_metadata 5 = 1 :=
  have h := (c6_reregistration_replaces_within_regime Decoder.new 5
    currentBlob14 [0x6d, 0x65, 0x74, 0x61, 15, 1] ⟨14, []⟩ ⟨15, [1]⟩
    ⟨⟨[]⟩, [(5, ⟨14, []⟩)]⟩ ⟨⟨[]⟩, [(5, ⟨15, [1]⟩)]⟩ rfl rfl rfl rfl).1
    (by decide) (by decide)
  ⟨h.1, h.2.1⟩

/-- Counterexample to C7 as stated: registering with a blob that fails to
decode (wrong magic bytes) returns an error that carries no spec
version — the bare error-conversion of the `?` operators in
`register_version` cannot attach one. -/
theorem c7_counterexample :
    Decoder.new.register_version 42 [1, 2, 3] = .error Error.Codec ∧
    errorSpecVersion Error.Codec = none :=
  ⟨rfl, rfl⟩

/-- C7 (amended): when `register_version` fails, the returned error conveys
the underlying cause (codec failure or unsupported metadata version) but
never carries the offending spec version; only the decode-side routing
failure `SpecVersionNotFound` carries a spec version. -/
theorem c7_register_error_has_no_spec_version (d : Decoder) (v : SpecVersion)
    (b : Bytes) (e : Error) (h : d.register_version v b = .error e) :
    errorSpecVersion e = none := by
  simp only [Decoder.register_version] at h
  cases hm : decodeRuntimeMetadataPrefixed b with
  | none =>
    simp only [hm] at h
    injection h with h2
    rw [← h2]
    rfl
  | some md =>
    simp only [hm] at h
    by_cases h14 : 14 ≤ md.version
    · rw [if_pos h14, currentFromRuntimeMetadata, if_pos h14] at h
      exact Except.noConfusion h
    · rw [if_neg h14] at h
      by_cases h8 : 8 ≤ md.version ∧ md.version ≤ 13
      · rw [legacyFromRuntimeMetadata, if_pos h8] at h
        simp only [LegacyDecoder.register_version] at h
        exact Except.noConfusion h
      · rw [legacyFromRuntimeMetadata, if_neg h8] at h
        injection h with h2
        rw [← h2]
        rfl

/-- Witness for the amended C7: a failing registration with a malformed
blob yields an error carrying no spec version. -/
theorem c7_register_error_has_no_spec_version_witness :
    Decoder.new.register_version 9 [0x6d, 0x65, 0x74, 0x61, 7] =
      .error (Error.UnsupportedMetadataVersion 7) ∧
    errorSpecVersion (Error.UnsupportedMetadataVersion 7) = none :=
  ⟨rfl, c7_register_error_has_no_spec_version Decoder.new 9
    [0x6d, 0x65, 0x74, 0x61, 7] (Error.UnsupportedMetadataVersion 7) rfl⟩

/-- C8: `get_chain_types` returns the types of the first range entry, in
document order, of the chain's list whose range contains `spec`; it
returns `none` when the chain is absent or no range contains `spec`. -/
theorem c8_get_chain_types_first_range (e : Extrinsics) (chain : String)
    (spec : Nat) :
    (∀ t, e.get_chain_types chain spec = some t ↔
      ∃ rs pre r suf, assocLookup e.entries chain = some rs ∧
        rs = pre ++ r :: suf ∧ is_in_range spec r = true ∧
        (∀ r2 ∈ pre, is_in_range spec r2 = false) ∧ t = r.types) ∧
    (assocLookup e.entries chain = none →
      e.get_chain_types chain spec = none) ∧
    (∀ rs, assocLookup e.entries chain = some rs →
      (∀ r ∈ rs, is_in_range spec r = false) →
      e.get_chain_types chain spec = none) := by
  refine ⟨?_, ?_, ?_⟩
  · intro t
    cases hlk : assocLookup e.entries chain with
    | none =>
      rw [Extrinsics.get_chain_types, hlk]
      simp
    | some rs =>
      rw [Extrinsics.get_chain_types, hlk]
      simp only [Option.some_bind]
      constructor
      · intro h
        rw [Option.map_eq_some'] at h
        obtain ⟨r, hfind, ht⟩ := h
        obtain ⟨pre, suf, hsplit, hp, hpre⟩ :=
          (find?_eq_some_first _ rs r).1 hfind
        exact ⟨rs, pre, r, suf, rfl, hsplit, hp, hpre, ht.symm⟩
      · rintro ⟨rs2, pre, r, suf, hrs2, hsplit, hp, hpre, ht⟩
        injection hrs2 with hrs3
        subst hrs3
        rw [Option.map_eq_some']
        refine ⟨r, ?_, ht.symm⟩
        exact (find?_eq_some_first _ rs r).2 ⟨pre, suf, hsplit, hp, hpre⟩
  · intro h
    rw [Extrinsics.get_chain_types, h]
    rfl
  · intro rs hlk hall
    rw [Extrinsics.get_chain_types, hlk]
    simp only [Option.some_bind]
    have hfind : rs.find? (fun f => is_in_range spec f) = none :=
      List.find?_eq_none.2 (fun x hx => by rw [hall x hx]; simp)
    rw [hfind]
    rfl

/-- Witness for C8 at a concrete override table: the first matching range
wins, an absent chain gives `none`, and an uncovered spec gives `none`. -/
theorem c8_get_chain_types_first_range_witness :
    (Extrinsics.mk [("kusama",
        [⟨1000, some 1050, [("A", "T1")]⟩, ⟨1020, none, [("A", "T2")]⟩])]
      ).get_chain_types "kusama" 1030 = some [("A", "T1")] ∧
    (Extrinsics.mk [("kusama",
        [⟨1000, some 1050, [("A", "T1")]⟩, ⟨1020, none, [("A", "T2")]⟩])]
      ).get_chain_types "polkadot" 1030 = none :=
  have h := c8_get_chain_types_first_range
    (Extrinsics.mk [("kusama",
      [⟨1000, some 1050, [("A", "T1")]⟩, ⟨1020, none, [("A", "T2")]⟩])])
    "kusama" 1030
  have h2 := c8_get_chain_types_first_range
    (Extrinsics.mk [("kusama",
      [⟨1000, some 1050, [("A", "T1")]⟩, ⟨1020, none, [("A", "T2")]⟩])])
    "polkadot" 1030
  ⟨(h.1 [("A", "T1")]).2
      ⟨[⟨1000, some 1050, [("A", "T1")]⟩, ⟨1020, none, [("A", "T2")]⟩], [],
        ⟨1000, some 1050, [("A", "T1")]⟩, [⟨1020, none, [("A", "T2")]⟩],
        by decide, rfl, by decide, by decide, rfl⟩,
   h2.2.1 (by decide)⟩

end Desub
